import Mathlib

/-!
Verification of the tabfix whitespace-normalization tool (core.py).

Text is modelled as a list of Unicode code points (`List Char`), matching
Python `str` semantics; raw file content is a list of byte values
(`List Nat`, each < 256).  Pure functions of `core.py` are translated
directly; the stateful `process_file` / main loop are translated into
explicit state passing over a `Stats` record, with disk writes reified as
data and Python exceptions as explicit outcome constructors.
-/

set_option maxRecDepth 4000

abbrev Text := List Char

/-- Python `str.isspace` character set, used by `str.rstrip()` with no
arguments (ASCII whitespace plus the Unicode whitespace code points). -/
def pyIsSpace (c : Char) : Bool :=
  let v := c.toNat
  (0x09 ≤ v && v ≤ 0x0D) || (0x1C ≤ v && v ≤ 0x1F) || v == 0x20 ||
  v == 0x85 || v == 0xA0 || v == 0x1680 ||
  (0x2000 ≤ v && v ≤ 0x200A) || v == 0x2028 || v == 0x2029 ||
  v == 0x202F || v == 0x205F || v == 0x3000

/-- Python `content.split("\n")`: always at least one piece, keeps empty
pieces, so `"a\n"` gives `["a", ""]` and `""` gives `[""]`. -/
def splitNl : Text → List Text
  | [] => [[]]
  | c :: cs =>
    if c = '\n' then [] :: splitNl cs
    else
      match splitNl cs with
      | [] => [[]]
      | l :: ls => (c :: l) :: ls

/-- Python `"\n".join(lines)`. -/
def joinNl : List Text → Text
  | [] => []
  | [l] => l
  | l :: ls => l ++ '\n' :: joinNl ls

/-- Python `line.rstrip()`: drop trailing whitespace characters. -/
def pyRstrip (l : Text) : Text :=
  (l.reverse.dropWhile pyIsSpace).reverse

/-- Python `line.replace(needle, rep)` for a single-character needle. -/
def replaceAll (needle : Char) (rep : Text) : Text → Text
  | [] => []
  | c :: cs => if c = needle then rep ++ replaceAll needle rep cs
               else c :: replaceAll needle rep cs

/-- Helper for `TabFix.fix_mixed_indentation`: walk the lines with their
1-based index, replacing every tab by `rep`; record a change for each line
that actually changed (mirrors the enumerate loop in core.py). -/
def fmiAux (rep : Text) (i : Nat) : List Text → List Text × List String
  | [] => ([], [])
  | l :: ls =>
    let r := fmiAux rep (i + 1) ls
    if l.elem '\t' then
      let fl := replaceAll '\t' rep l
      if fl ≠ l then
        (fl :: r.1, ("Line " ++ toString i ++ ": Tabs → spaces") :: r.2)
      else (fl :: r.1, r.2)
    else (l :: r.1, r.2)

/-- `TabFix.fix_mixed_indentation`: replace every tab anywhere in a line by
`spaces_per_tab` spaces (Python `" " * n`, empty for `n ≤ 0`). -/
def fix_mixed_indentation (spaces_per_tab : Int) (content : Text) :
    Text × List String :=
  let r := fmiAux (List.replicate spaces_per_tab.toNat ' ') 1 (splitNl content)
  (joinNl r.1, r.2)

/-- Helper for `TabFix.fix_trailing_spaces`: rstrip every line, recording a
change when the length decreased (the `len(fixed_line) != original_length`
test of core.py). -/
def ftsAux (i : Nat) : List Text → List Text × List String
  | [] => ([], [])
  | l :: ls =>
    let r := ftsAux (i + 1) ls
    let fl := pyRstrip l
    if fl.length ≠ l.length then
      (fl :: r.1, ("Line " ++ toString i ++ ": Removed trailing spaces") :: r.2)
    else (l :: r.1, r.2)

/-- `TabFix.fix_trailing_spaces`. -/
def fix_trailing_spaces (content : Text) : Text × List String :=
  let r := ftsAux 1 (splitNl content)
  (joinNl r.1, r.2)

/-- `TabFix.ensure_final_newline`: `if content and not content.endswith("\n")`. -/
def ensure_final_newline (content : Text) : Text × List String :=
  if content ≠ [] ∧ content.getLast? ≠ some '\n' then
    (content ++ ['\n'], ["Added final newline"])
  else (content, [])

/-- The three gated line-level transforms of `process_file` in source
order: mixed-indentation fix, trailing-whitespace removal, final-newline
enforcement.  A disabled transform is skipped entirely. -/
def pipe3 (m t n : Bool) (w : Int) (c : Text) : Text × List String :=
  let p1 := if m then fix_mixed_indentation w c else (c, [])
  let p2 := if t then fix_trailing_spaces p1.1 else (p1.1, [])
  let p3 := if n then ensure_final_newline p2.1 else (p2.1, [])
  (p3.1, p1.2 ++ (p2.2 ++ p3.2))

/-! ## Bytes, UTF-8, BOM (core.py lines 138-144, decode at line 377) -/

/-- UTF-8 encoding of one code point (Python `str.encode("utf-8")`). -/
def utf8EncodeChar (c : Char) : List Nat :=
  let v := c.toNat
  if v < 0x80 then [v]
  else if v < 0x800 then [0xC0 + v / 64, 0x80 + v % 64]
  else if v < 0x10000 then
    [0xE0 + v / 4096, 0x80 + v / 64 % 64, 0x80 + v % 64]
  else
    [0xF0 + v / 0x40000, 0x80 + v / 4096 % 64, 0x80 + v / 64 % 64, 0x80 + v % 64]

/-- Python `content.encode("utf-8")`. -/
def utf8Encode (t : Text) : List Nat :=
  match t with
  | [] => []
  | c :: cs => utf8EncodeChar c ++ utf8Encode cs

/-- Strict UTF-8 decoding (Python `bytes.decode("utf-8")`): rejects
overlong forms, surrogates, out-of-range values and truncated sequences. -/
def utf8Decode : List Nat → Option Text
  | [] => some []
  | b :: rest =>
    if b < 0x80 then
      match utf8Decode rest with
      | some t => some (Char.ofNat b :: t)
      | none => none
    else if 0xC2 ≤ b ∧ b ≤ 0xDF then
      match rest with
      | c1 :: rest1 =>
        if 0x80 ≤ c1 ∧ c1 ≤ 0xBF then
          match utf8Decode rest1 with
          | some t => some (Char.ofNat ((b - 0xC0) * 64 + (c1 - 0x80)) :: t)
          | none => none
        else none
      | [] => none
    else if 0xE0 ≤ b ∧ b ≤ 0xEF then
      match rest with
      | c1 :: c2 :: rest2 =>
        let lo1 := if b = 0xE0 then 0xA0 else 0x80
        let hi1 := if b = 0xED then 0x9F else 0xBF
        if (lo1 ≤ c1 ∧ c1 ≤ hi1) ∧ (0x80 ≤ c2 ∧ c2 ≤ 0xBF) then
          match utf8Decode rest2 with
          | some t =>
            some (Char.ofNat ((b - 0xE0) * 4096 + (c1 - 0x80) * 64 + (c2 - 0x80)) :: t)
          | none => none
        else none
      | _ => none
    else if 0xF0 ≤ b ∧ b ≤ 0xF4 then
      match rest with
      | c1 :: c2 :: c3 :: rest3 =>
        let lo1 := if b = 0xF0 then 0x90 else 0x80
        let hi1 := if b = 0xF4 then 0x8F else 0xBF
        if (lo1 ≤ c1 ∧ c1 ≤ hi1) ∧ (0x80 ≤ c2 ∧ c2 ≤ 0xBF) ∧
            (0x80 ≤ c3 ∧ c3 ≤ 0xBF) then
          match utf8Decode rest3 with
          | some t =>
            some (Char.ofNat ((b - 0xF0) * 0x40000 + (c1 - 0x80) * 4096 +
              (c2 - 0x80) * 64 + (c3 - 0x80)) :: t)
          | none => none
        else none
      | _ => none
    else none

/-- The UTF-8 byte-order-mark prefix `b"\xef\xbb\xbf"`. -/
def bomBytes : List Nat := [0xEF, 0xBB, 0xBF]

/-- `raw_content.startswith(b"\xef\xbb\xbf")`. -/
def isBomPrefixed : List Nat → Bool
  | a :: b :: c :: _ => a == 0xEF && (b == 0xBB && c == 0xBF)
  | _ => false

/-- `TabFix.remove_bom`. -/
def remove_bom (content : List Nat) : List Nat × Bool :=
  if isBomPrefixed content then (content.drop 3, true) else (content, false)

/-- `TabFix.add_bom`. -/
def add_bom (content : List Nat) : List Nat :=
  bomBytes ++ content

/-- Python `bytes.decode("utf-8-sig")`: strip one leading BOM if present,
then strict UTF-8 decoding. -/
def decode_utf8_sig (raw : List Nat) : Option Text :=
  utf8Decode (if isBomPrefixed raw then raw.drop 3 else raw)

/-! ## JSON (`TabFix.format_json`, core.py lines 146-154)

Model of the Python `json` module calls at the fidelity the source uses
them: JSON values are null, booleans, integers, strings, arrays and
objects (insertion-ordered key lists, as `json.loads` preserves order and
`format_json` passes no `sort_keys`).  Floating-point literals are outside
the model: `jsonLoads` rejects them where Python would build a float.  No
claim evaluates the parser on a float input. -/

inductive PyJson where
  | null : PyJson
  | bool (b : Bool) : PyJson
  | int (n : Int) : PyJson
  | str (s : Text) : PyJson
  | arr (xs : List PyJson) : PyJson
  | obj (kvs : List (Text × PyJson)) : PyJson

/-- JSON whitespace accepted by the Python scanner. -/
def jsonWs (c : Char) : Bool :=
  c = ' ' || c = '\t' || c = '\n' || c = '\r'

def skipWs (s : Text) : Text := s.dropWhile jsonWs

def hexVal (c : Char) : Option Nat :=
  let v := c.toNat
  if 48 ≤ v ∧ v ≤ 57 then some (v - 48)
  else if 97 ≤ v ∧ v ≤ 102 then some (v - 87)
  else if 65 ≤ v ∧ v ≤ 70 then some (v - 55)
  else none

/-- Scan a JSON string body (after the opening quote); returns the decoded
characters and the remainder after the closing quote.  Surrogate escapes
are outside the model (they build lone surrogates or pairs in Python). -/
def parseJString : Text → Option (Text × Text)
  | [] => none
  | '"' :: rest => some ([], rest)
  | '\\' :: rest =>
    match rest with
    | 'u' :: h1 :: h2 :: h3 :: h4 :: rest2 =>
      match hexVal h1, hexVal h2, hexVal h3, hexVal h4 with
      | some a, some b, some c, some d =>
        let v := a * 4096 + b * 256 + c * 16 + d
        if 0xD800 ≤ v ∧ v < 0xE000 then none
        else
          match parseJString rest2 with
          | some p => some (Char.ofNat v :: p.1, p.2)
          | none => none
      | _, _, _, _ => none
    | e :: rest1 =>
      let esc : Option Char :=
        if e = '"' then some '"'
        else if e = '\\' then some '\\'
        else if e = '/' then some '/'
        else if e = 'b' then some (Char.ofNat 8)
        else if e = 'f' then some (Char.ofNat 12)
        else if e = 'n' then some '\n'
        else if e = 'r' then some '\r'
        else if e = 't' then some '\t'
        else none
      match esc with
      | some c =>
        match parseJString rest1 with
        | some p => some (c :: p.1, p.2)
        | none => none
      | none => none
    | [] => none
  | c :: rest =>
    if c.toNat < 0x20 then none
    else
      match parseJString rest with
      | some p => some (c :: p.1, p.2)
      | none => none

def digitsVal (ds : Text) : Nat :=
  ds.foldl (fun a c => a * 10 + (c.toNat - 48)) 0

/-- Parse a JSON number.  Integer literals only; a fraction or exponent
part (a Python float) is outside the model and rejected. -/
def parseNumber (s : Text) : Option (PyJson × Text) :=
  let neg := s.head? = some '-'
  let s1 := if neg then s.tail else s
  let ds := s1.takeWhile Char.isDigit
  let rest := s1.dropWhile Char.isDigit
  if ds = [] then none
  else if ds.head? = some '0' ∧ ds.length > 1 then none
  else
    match rest with
    | c :: _ =>
      if c = '.' ∨ c = 'e' ∨ c = 'E' then none
      else some (.int (if neg then -(digitsVal ds : Int) else (digitsVal ds : Int)), rest)
    | [] => some (.int (if neg then -(digitsVal ds : Int) else (digitsVal ds : Int)), rest)

mutual
def parseValue : Nat → Text → Option (PyJson × Text)
  | 0, _ => none
  | Nat.succ fuel, s =>
    match s with
    | [] => none
    | c :: rest =>
      if c = '"' then
        match parseJString rest with
        | some p => some (.str p.1, p.2)
        | none => none
      else if c = Char.ofNat 123 then parseObj fuel (skipWs rest)
      else if c = '[' then parseArr fuel (skipWs rest)
      else if c = 't' then
        match rest with
        | 'r' :: 'u' :: 'e' :: r2 => some (.bool true, r2)
        | _ => none
      else if c = 'f' then
        match rest with
        | 'a' :: 'l' :: 's' :: 'e' :: r2 => some (.bool false, r2)
        | _ => none
      else if c = 'n' then
        match rest with
        | 'u' :: 'l' :: 'l' :: r2 => some (.null, r2)
        | _ => none
      else parseNumber (c :: rest)

def parseObj : Nat → Text → Option (PyJson × Text)
  | 0, _ => none
  | Nat.succ fuel, s =>
    match s with
    | [] => none
    | c :: rest =>
      if c = Char.ofNat 125 then some (.obj [], rest)
      else parseObjRest fuel [] (c :: rest)

def parseObjRest : Nat → List (Text × PyJson) → Text → Option (PyJson × Text)
  | 0, _, _ => none
  | Nat.succ fuel, acc, s =>
    match s with
    | '"' :: rest =>
      match parseJString rest with
      | some kp =>
        match skipWs kp.2 with
        | ':' :: r2 =>
          match parseValue fuel (skipWs r2) with
          | some vp =>
            match skipWs vp.2 with
            | ',' :: r4 => parseObjRest fuel (acc ++ [(kp.1, vp.1)]) (skipWs r4)
            | c :: r4 =>
              if c = Char.ofNat 125 then some (.obj (acc ++ [(kp.1, vp.1)]), r4)
              else none
            | [] => none
          | none => none
        | _ => none
      | none => none
    | _ => none

def parseArr : Nat → Text → Option (PyJson × Text)
  | 0, _ => none
  | Nat.succ fuel, s =>
    match s with
    | [] => none
    | c :: rest =>
      if c = ']' then some (.arr [], rest)
      else parseArrRest fuel [] (c :: rest)

def parseArrRest : Nat → List PyJson → Text → Option (PyJson × Text)
  | 0, _, _ => none
  | Nat.succ fuel, acc, s =>
    match parseValue fuel s with
    | some vp =>
      match skipWs vp.2 with
      | ',' :: r2 => parseArrRest fuel (acc ++ [vp.1]) (skipWs r2)
      | ']' :: r2 => some (.arr (acc ++ [vp.1]), r2)
      | _ => none
    | none => none
end

/-- Python `json.loads`: surrounding whitespace allowed, the whole text
must be consumed. -/
def jsonLoads (s : Text) : Option PyJson :=
  match parseValue (3 * s.length + 3) (skipWs s) with
  | some vp => if skipWs vp.2 = [] then some vp.1 else none
  | none => none

def hexDigitChar (n : Nat) : Char :=
  if n < 10 then Char.ofNat (48 + n) else Char.ofNat (87 + n)

/-- `json.dumps` string escaping with `ensure_ascii=False`. -/
def jsonEscChar (c : Char) : Text :=
  if c = '"' then ['\\', '"']
  else if c = '\\' then ['\\', '\\']
  else if c = '\n' then ['\\', 'n']
  else if c = '\r' then ['\\', 'r']
  else if c = '\t' then ['\\', 't']
  else if c.toNat = 8 then ['\\', 'b']
  else if c.toNat = 12 then ['\\', 'f']
  else if c.toNat < 0x20 then
    let v := c.toNat
    ['\\', 'u', hexDigitChar (v / 4096 % 16), hexDigitChar (v / 256 % 16),
      hexDigitChar (v / 16 % 16), hexDigitChar (v % 16)]
  else [c]

def jsonQuote (s : Text) : Text :=
  '"' :: (s.flatMap jsonEscChar) ++ ['"']

def indentPad (ind lvl : Nat) : Text :=
  List.replicate (ind * lvl) ' '

mutual
/-- Python `json.dumps(v, indent=ind, ensure_ascii=False)` at nesting
level `lvl`: item separator `","`, key separator `": "`, one item per
line, empty containers inline. -/
def dumpVal (ind lvl : Nat) : PyJson → Text
  | .null => "null".data
  | .bool b => if b then "true".data else "false".data
  | .int n => (toString n).data
  | .str s => jsonQuote s
  | .arr [] => ['[', ']']
  | .arr (x :: rest) =>
    '[' :: '\n' :: (indentPad ind (lvl + 1) ++ dumpVal ind (lvl + 1) x ++
      dumpArrTail ind (lvl + 1) rest) ++ '\n' :: (indentPad ind lvl ++ [']'])
  | .obj [] => [Char.ofNat 123, Char.ofNat 125]
  | .obj (kv :: rest) =>
    Char.ofNat 123 :: '\n' :: (indentPad ind (lvl + 1) ++ jsonQuote kv.1 ++
      ':' :: ' ' :: dumpVal ind (lvl + 1) kv.2 ++ dumpObjTail ind (lvl + 1) rest) ++
      '\n' :: (indentPad ind lvl ++ [Char.ofNat 125])

def dumpArrTail (ind lvl : Nat) : List PyJson → Text
  | [] => []
  | x :: rest =>
    ',' :: '\n' :: (indentPad ind lvl ++ dumpVal ind lvl x ++ dumpArrTail ind lvl rest)

def dumpObjTail (ind lvl : Nat) : List (Text × PyJson) → Text
  | [] => []
  | kv :: rest =>
    ',' :: '\n' :: (indentPad ind lvl ++ jsonQuote kv.1 ++ ':' :: ' ' ::
      dumpVal ind lvl kv.2 ++ dumpObjTail ind lvl rest)
end

/-- `TabFix.format_json`: parse; on success re-serialize at the configured
indent and replace only when different; parse failure is a silent no-op. -/
def format_json (spaces_per_tab : Int) (content : Text) : Text × Bool :=
  match jsonLoads content with
  | some parsed =>
    let formatted := dumpVal spaces_per_tab.toNat 0 parsed
    if formatted ≠ content then (formatted, true) else (content, false)
  | none => (content, false)

/-! ## GitignoreMatcher (core.py lines 41-120)

`fnmatch.fnmatch` on POSIX is `fnmatchcase` after an identity `normcase`:
`*` matches any run of characters (including `/`), `?` any one character.
Character classes `[...]` appear in none of the patterns the claims use
and are not modelled.  A path handed to `should_ignore` is represented by
its components relative to the matcher root (`none` when
`Path.relative_to` raises `ValueError`, i.e. the path is outside the
root); the root itself has the empty component list, whose Python
`str(rel_path)` is `"."`. -/

def globMatch : Nat → Text → Text → Bool
  | 0, _, _ => false
  | Nat.succ _, [], [] => true
  | Nat.succ _, [], _ :: _ => false
  | Nat.succ fuel, p :: ps, s =>
    if p = '*' then
      globMatch fuel ps s ||
        (match s with
         | [] => false
         | _ :: s1 => globMatch fuel (p :: ps) s1)
    else
      match s with
      | [] => false
      | c :: s1 => (p = '?' || p = c) && globMatch fuel ps s1

/-- `fnmatch.fnmatch(s, pat)` (POSIX). -/
def fnmatch (s pat : Text) : Bool :=
  globMatch (pat.length + s.length + 1) pat s

/-- Relative-path string: Python `str(rel_path)` with `/` separators;
`"."` for the root itself. -/
def relStr (comps : List Text) : Text :=
  match comps with
  | [] => ['.']
  | l :: ls => joinSlash (l :: ls)
where
  joinSlash : List Text → Text
    | [] => []
    | [l] => l
    | l :: ls => l ++ '/' :: joinSlash ls

/-- `GitignoreMatcher.should_ignore`: `rel` is `some comps` when the
resolved path is under the root (its components relative to the root) and
`none` when `relative_to` fails; `name` is the final path component. -/
def should_ignore (patterns : List Text) (rel : Option (List Text)) : Bool :=
  match rel with
  | none => false
  | some comps =>
    match comps with
    | [] => false
    | c0 :: cr =>
      let rs := relStr (c0 :: cr)
      let name := (c0 :: cr).getLast (by simp)
      patterns.any fun pattern =>
        if pattern.getLast? = some '/' then
          pattern.dropLast.isPrefixOf rs || fnmatch rs pattern.dropLast
        else
          fnmatch rs pattern || fnmatch name pattern

/-! ## FileProcessor (`TabFix.process_file`, core.py lines 345-441) and the
main processing loop (lines 733-746)

The run options recognised by `process_file` and `print_stats`; the
`stats` dict of `TabFix.__init__`; and the per-file inputs: the lowered
suffix, the `is_file` / `stat().st_size` answers, the raw read (`none`
models an exception caught by the read `try` block), the gitignore verdict
(`none` when no matcher is supplied), and the interactive-prompt answer.
Disk writes are reified in `Effects`; `sys.exit(0)` from the confirmation
prompt and an uncaught `UnicodeDecodeError` from
`raw_content.decode("utf-8-sig")` are explicit outcome constructors. -/

structure Args where
  spaces : Int
  remove_bom : Bool
  keep_bom : Bool
  format_json : Bool
  fix_mixed : Bool
  fix_trailing : Bool
  final_newline : Bool
  dry_run : Bool
  backup : Bool
  interactive : Bool
  verbose : Bool
  quiet : Bool
deriving DecidableEq

structure Stats where
  files_processed : Nat
  files_changed : Nat
  tabs_replaced : Nat
  lines_fixed : Nat
  bom_removed : Nat
  json_formatted : Nat
  mixed_indent_files : Nat
  files_skipped : Nat
deriving DecidableEq

/-- The all-zero counters dict of `TabFix.__init__`. -/
def stats_init : Stats :=
  ⟨0, 0, 0, 0, 0, 0, 0, 0⟩

inductive Response where
  | yes : Response
  | no : Response
  | quit : Response
deriving DecidableEq

structure FileInput where
  suffixLower : Text
  isFile : Bool
  size : Nat
  readResult : Option (List Nat)
  ignored : Option Bool
  response : Response
deriving DecidableEq

structure Effects where
  wroteTarget : Option (List Nat)
  wroteBackup : Option (List Nat)
deriving DecidableEq

def noEffects : Effects := ⟨none, none⟩

inductive PFOut where
  | res (changed : Bool) (eff : Effects) (s : Stats) : PFOut
  | decodeErr (s : Stats) : PFOut
  | quitExit (s : Stats) : PFOut
deriving DecidableEq

/-- The suffix string `".json"` compared against `filepath.suffix.lower()`. -/
def jsonSuffix : Text := ".json".data

/-- Lines 414-416: re-encode, re-adding the BOM exactly when `--keep-bom`
is set and a BOM was originally present. -/
def encode_output (a : Args) (had_bom : Bool) (content : Text) : List Nat :=
  if a.keep_bom ∧ had_bom then add_bom (utf8Encode content)
  else utf8Encode content

/-- The JSON step of `process_file` (lines 383-388) as a text/changes pair. -/
def jsonStep (a : Args) (suffixLower : Text) (c : Text) : Text × List String :=
  if a.format_json ∧ suffixLower = jsonSuffix then
    let fc := format_json a.spaces c
    if fc.2 then (fc.1, ["Formatted JSON"]) else (c, [])
  else (c, [])

/-- The enabled-transform pipeline of `process_file` (lines 383-406):
JSON canonicalization, then the three line transforms, accumulating the
change descriptions in source order. -/
def transform_pipeline (a : Args) (suffixLower : Text) (c : Text) : Text × List String :=
  let j := jsonStep a suffixLower c
  let r := pipe3 a.fix_mixed a.fix_trailing a.final_newline a.spaces j.1
  (r.1, j.2 ++ r.2)

/-- The `"Removed BOM"` pending change of lines 380-381. -/
def bom_changes (a : Args) (raw : List Nat) : List String :=
  if a.remove_bom ∧ isBomPrefixed raw then ["Removed BOM"] else []

/-- The statistics mutations performed while the transforms run
(lines 383-402): `json_formatted`, `tabs_replaced` and `lines_fixed` are
incremented as each transform fires, before any write decision. -/
def stats_after_transforms (a : Args) (f : FileInput) (content0 : Text)
    (s : Stats) : Stats :=
  let j := jsonStep a f.suffixLower content0
  let p1 := if a.fix_mixed then fix_mixed_indentation a.spaces j.1 else (j.1, [])
  let p2 := if a.fix_trailing then fix_trailing_spaces p1.1 else (p1.1, [])
  { s with
    json_formatted := s.json_formatted + (if j.2 = [] then 0 else 1),
    tabs_replaced := s.tabs_replaced + p1.2.length,
    lines_fixed := s.lines_fixed + p1.2.length + p2.2.length }

/-- Line 433: `self.stats["files_changed"] += 1`. -/
def bump_changed (s : Stats) : Stats :=
  { s with files_changed := s.files_changed + 1 }

/-- Line 431: `self.stats["bom_removed"] += 1`. -/
def bump_bom_removed (s : Stats) : Stats :=
  { s with bom_removed := s.bom_removed + 1 }

/-- Lines 408-440 of `process_file`: the no-change early return, the
interactive confirmation, the re-encode, the byte-identical no-op return,
the backup write, the dry-run gate and the final write and count. -/
def pf_finish (a : Args) (f : FileInput) (raw : List Nat) (content : Text)
    (changes : List String) (s1 : Stats) : PFOut :=
  if changes = [] then .res false noEffects s1
  else if a.interactive ∧ f.response = .quit then .quitExit s1
  else if a.interactive ∧ f.response = .no then .res false noEffects s1
  else if encode_output a (isBomPrefixed raw) content = raw then
    .res false noEffects s1
  else
    .res true
      ⟨if a.dry_run then none
        else some (encode_output a (isBomPrefixed raw) content),
        if a.backup then some raw else none⟩
      (bump_changed
        (if a.dry_run then s1
         else if isBomPrefixed raw ∧ a.remove_bom then bump_bom_removed s1
         else s1))

/-- Lines 374-440: transforms plus write decision, once the raw bytes have
been read and decoded. -/
def pf_with_content (a : Args) (f : FileInput) (raw : List Nat)
    (content0 : Text) (s : Stats) : PFOut :=
  pf_finish a f raw (transform_pipeline a f.suffixLower content0).1
    (bom_changes a raw ++ (transform_pipeline a f.suffixLower content0).2)
    (stats_after_transforms a f content0 s)

/-- `TabFix.process_file`. -/
def process_file (a : Args) (f : FileInput) (s : Stats) : PFOut :=
  if f.ignored = some true then
    .res false noEffects { s with files_skipped := s.files_skipped + 1 }
  else if f.isFile = false then .res false noEffects s
  else if f.size > 10 * 1024 * 1024 then .res false noEffects s
  else
    match f.readResult with
    | none => .res false noEffects s
    | some raw =>
      match decode_utf8_sig raw with
      | none => .decodeErr s
      | some content0 => pf_with_content a f raw content0 s

inductive RunResult where
  | completed (s : Stats) : RunResult
  | abortedException (s : Stats) (remaining : Nat) : RunResult
  | exitedQuit (s : Stats) (remaining : Nat) : RunResult
deriving DecidableEq

/-- The per-file loop of `main` (core.py lines 733-746): an exception
escaping `process_file` (the uncaught decode error) aborts the run with
the remaining files unprocessed; the interactive quit exits the process. -/
def main_loop (a : Args) : List FileInput → Stats → RunResult
  | [], s => .completed s
  | f :: rest, s =>
    match process_file a f s with
    | .res _ _ s1 => main_loop a rest s1
    | .decodeErr s1 => .abortedException s1 rest.length
    | .quitExit s1 => .exitedQuit s1 rest.length

/-- `TabFix.print_stats` (lines 486-541): the derived
percent-of-processed-files-changed line is printed exactly when quiet mode
is off and `files_processed` is positive. -/
def print_stats_shows_percent (a : Args) (s : Stats) : Bool :=
  if a.quiet then false
  else if s.files_processed > 0 then true
  else false

/-- Whether the decoded text itself begins with the code point U+FEFF
(which UTF-8-encodes to the BOM byte sequence). -/
def textStartsFeff : Text → Bool
  | [] => false
  | c :: _ => c.toNat == 0xFEFF

/-! ## Concrete run configurations used by the claim witnesses and
counterexamples.  `Args` field order: spaces, remove_bom, keep_bom,
format_json, fix_mixed, fix_trailing, final_newline, dry_run, backup,
interactive, verbose, quiet. -/

/-- `--remove-bom --keep-bom` (rejected by `main`, but `process_file`
itself never checks the combination; the spec itself names it: "BOM
removed then re-added"). -/
def argsBomRoundTrip : Args :=
  ⟨4, true, true, false, false, false, false, false, false, false, false, false⟩

/-- A BOM-prefixed two-byte ASCII file `b"\xef\xbb\xbfhi"`. -/
def fileBomHi : FileInput :=
  ⟨".txt".data, true, 5, some [0xEF, 0xBB, 0xBF, 104, 105], none, .yes⟩

/-- `--format-json --final-newline` with width 4. -/
def argsJsonNl : Args :=
  ⟨4, false, false, true, false, false, true, false, false, false, false, false⟩

/-- `-m -t -f` with width 4 (the end-to-end scenario options). -/
def argsMTN : Args :=
  ⟨4, false, false, false, true, true, true, false, false, false, false, false⟩

/-- `-t` only. -/
def argsTrailing : Args :=
  ⟨4, false, false, false, false, true, false, false, false, false, false, false⟩

/-- `-t --dry-run --backup`. -/
def argsDryBackup : Args :=
  ⟨4, false, false, false, false, true, false, true, true, false, false, false⟩

/-- `--remove-bom` alone. -/
def argsRemoveBom : Args :=
  ⟨4, true, false, false, false, false, false, false, false, false, false, false⟩

/-- A regular file whose bytes `b"a "` carry trailing whitespace. -/
def fileTrailing : FileInput :=
  ⟨".txt".data, true, 2, some [97, 32], none, .yes⟩

/-- A regular file whose single byte `b"\xff"` is not valid UTF-8. -/
def fileBadUtf8 : FileInput :=
  ⟨".txt".data, true, 1, some [0xFF], none, .yes⟩

/-- A doubled-BOM file `b"\xef\xbb\xbf\xef\xbb\xbfh"`: the decoded text
starts with U+FEFF after `utf-8-sig` strips only the first BOM. -/
def fileDoubleBom : FileInput :=
  ⟨".txt".data, true, 7, some [0xEF, 0xBB, 0xBF, 0xEF, 0xBB, 0xBF, 104], none, .yes⟩

/-- A regular file whose read raises (permission or I/O error caught by
the `try` block of lines 354-372). -/
def fileReadFail : FileInput :=
  ⟨".txt".data, true, 2, none, none, .yes⟩

/-! ## Line-splitting lemmas -/

theorem splitNl_newline (cs : Text) : splitNl ('\n' :: cs) = [] :: splitNl cs := by
  simp [splitNl]

theorem splitNl_cons_ne {x : Char} (hx : x ≠ '\n') {cs : Text} {l : Text}
    {ls : List Text} (h : splitNl cs = l :: ls) :
    splitNl (x :: cs) = (x :: l) :: ls := by
  simp only [splitNl, if_neg hx, h]

theorem splitNl_ne_nil (c : Text) : splitNl c ≠ [] := by
  induction c with
  | nil => simp [splitNl]
  | cons x xs ih =>
    cases h : splitNl xs with
    | nil => exact absurd h ih
    | cons l ls =>
      by_cases hx : x = '\n'
      · subst hx
        simp [splitNl_newline]
      · simp [splitNl_cons_ne hx h]

theorem joinNl_cons_cons (x : Char) (l : Text) (ls : List Text) :
    joinNl ((x :: l) :: ls) = x :: joinNl (l :: ls) := by
  cases ls <;> rfl

theorem joinNl_nil_cons (l : Text) (ls : List Text) :
    joinNl ([] :: l :: ls) = '\n' :: joinNl (l :: ls) := rfl

theorem joinNl_splitNl (c : Text) : joinNl (splitNl c) = c := by
  induction c with
  | nil => rfl
  | cons x xs ih =>
    cases h : splitNl xs with
    | nil => exact absurd h (splitNl_ne_nil xs)
    | cons l ls =>
      rw [h] at ih
      by_cases hx : x = '\n'
      · subst hx
        rw [splitNl_newline, h, joinNl_nil_cons, ih]
      · rw [splitNl_cons_ne hx h, joinNl_cons_cons, ih]

theorem mem_of_mem_splitNl {x : Char} {l c : Text} (hl : l ∈ splitNl c)
    (hx : x ∈ l) : x ∈ c := by
  induction c generalizing l with
  | nil =>
    simp [splitNl] at hl
    subst hl
    exact absurd hx (List.not_mem_nil x)
  | cons y ys ih =>
    cases h : splitNl ys with
    | nil => exact absurd h (splitNl_ne_nil ys)
    | cons l0 ls0 =>
      have hl0 : l0 ∈ splitNl ys := by
        rw [h]
        exact List.mem_cons_self _ _
      by_cases hy : y = '\n'
      · subst hy
        rw [splitNl_newline] at hl
        rcases List.mem_cons.mp hl with rfl | hl
        · exact absurd hx (List.not_mem_nil x)
        · exact List.mem_cons_of_mem _ (ih hl hx)
      · rw [splitNl_cons_ne hy h] at hl
        rcases List.mem_cons.mp hl with rfl | hl
        · rcases List.mem_cons.mp hx with rfl | hx
          · exact List.mem_cons_self x ys
          · exact List.mem_cons_of_mem y (ih hl0 hx)
        · have hmem : l ∈ splitNl ys := by
            rw [h]
            exact List.mem_cons_of_mem l0 hl
          exact List.mem_cons_of_mem y (ih hmem hx)

theorem no_newline_of_mem_splitNl {l c : Text} (hl : l ∈ splitNl c) :
    '\n' ∉ l := by
  induction c generalizing l with
  | nil =>
    simp [splitNl] at hl
    simp [hl]
  | cons y ys ih =>
    cases h : splitNl ys with
    | nil => exact absurd h (splitNl_ne_nil ys)
    | cons l0 ls0 =>
      have hl0 : l0 ∈ splitNl ys := by
        rw [h]
        exact List.mem_cons_self _ _
      by_cases hy : y = '\n'
      · subst hy
        rw [splitNl_newline] at hl
        rcases List.mem_cons.mp hl with rfl | hl
        · simp
        · exact ih hl
      · rw [splitNl_cons_ne hy h] at hl
        rcases List.mem_cons.mp hl with rfl | hl
        · intro hmem
          rcases List.mem_cons.mp hmem with h1 | h1
          · exact hy h1.symm
          · exact ih hl0 h1
        · have hmem : l ∈ splitNl ys := by
            rw [h]
            exact List.mem_cons_of_mem l0 hl
          exact ih hmem

theorem splitNl_single {l : Text} (h : '\n' ∉ l) : splitNl l = [l] := by
  induction l with
  | nil => rfl
  | cons c cs ih =>
    have hc : c ≠ '\n' := fun hc => h (hc ▸ List.mem_cons_self c cs)
    have hcs : '\n' ∉ cs := fun hm => h (List.mem_cons_of_mem c hm)
    exact splitNl_cons_ne hc (ih hcs)

theorem splitNl_append_newline {l : Text} (r : Text) (h : '\n' ∉ l) :
    splitNl (l ++ '\n' :: r) = l :: splitNl r := by
  induction l with
  | nil => exact splitNl_newline r
  | cons c cs ih =>
    have hc : c ≠ '\n' := fun hc => h (hc ▸ List.mem_cons_self c cs)
    have hcs : '\n' ∉ cs := fun hm => h (List.mem_cons_of_mem c hm)
    rw [List.cons_append, splitNl_cons_ne hc (ih hcs)]

theorem splitNl_joinNl {ls : List Text} (hnl : ∀ l ∈ ls, '\n' ∉ l)
    (hne : ls ≠ []) : splitNl (joinNl ls) = ls := by
  induction ls with
  | nil => exact absurd rfl hne
  | cons l ls ih =>
    cases ls with
    | nil => exact splitNl_single (hnl l (List.mem_cons_self l []))
    | cons l2 ls2 =>
      have h1 : joinNl (l :: l2 :: ls2) = l ++ '\n' :: joinNl (l2 :: ls2) := rfl
      rw [h1, splitNl_append_newline _ (hnl l (List.mem_cons_self _ _)),
        ih (fun x hx => hnl x (List.mem_cons_of_mem l hx)) (by simp)]

theorem splitNl_snoc_newline (c : Text) :
    splitNl (c ++ ['\n']) = splitNl c ++ [[]] := by
  induction c with
  | nil => rfl
  | cons y ys ih =>
    cases h : splitNl ys with
    | nil => exact absurd h (splitNl_ne_nil ys)
    | cons l0 ls0 =>
      by_cases hy : y = '\n'
      · subst hy
        simp [splitNl_newline, ih]
      · have h2 : splitNl (ys ++ ['\n']) = l0 :: (ls0 ++ [[]]) := by
          rw [ih, h]
          rfl
        rw [List.cons_append, splitNl_cons_ne hy h2, splitNl_cons_ne hy h]
        rfl

/-! ## rstrip / replace lemmas -/

theorem dropWhile_idem (p : Char → Bool) (xs : Text) :
    (xs.dropWhile p).dropWhile p = xs.dropWhile p := by
  induction xs with
  | nil => rfl
  | cons x xs ih =>
    by_cases h : p x
    · rw [List.dropWhile_cons_of_pos h, ih]
    · rw [List.dropWhile_cons_of_neg h, List.dropWhile_cons_of_neg h]

theorem pyRstrip_idem (l : Text) : pyRstrip (pyRstrip l) = pyRstrip l := by
  unfold pyRstrip
  rw [List.reverse_reverse, dropWhile_idem]

theorem pyRstrip_sublist (l : Text) : (pyRstrip l).Sublist l := by
  have h := (List.dropWhile_sublist (l := l.reverse) (p := pyIsSpace)).reverse
  rwa [List.reverse_reverse] at h

theorem pyRstrip_eq_of_length {l : Text} (h : (pyRstrip l).length = l.length) :
    pyRstrip l = l :=
  (pyRstrip_sublist l).eq_of_length h

theorem mem_of_mem_pyRstrip {x : Char} {l : Text} (h : x ∈ pyRstrip l) : x ∈ l :=
  (pyRstrip_sublist l).mem h

theorem mem_replaceAll {x needle : Char} {rep l : Text}
    (h : x ∈ replaceAll needle rep l) : x ∈ rep ∨ x ∈ l := by
  induction l with
  | nil => exact absurd h (List.not_mem_nil x)
  | cons c cs ih =>
    simp only [replaceAll] at h
    by_cases hc : c = needle
    · rw [if_pos hc] at h
      rcases List.mem_append.mp h with h1 | h1
      · exact Or.inl h1
      · rcases ih h1 with h2 | h2
        · exact Or.inl h2
        · exact Or.inr (List.mem_cons_of_mem c h2)
    · rw [if_neg hc] at h
      rcases List.mem_cons.mp h with rfl | h1
      · exact Or.inr (List.mem_cons_self x cs)
      · rcases ih h1 with h2 | h2
        · exact Or.inl h2
        · exact Or.inr (List.mem_cons_of_mem c h2)

theorem not_mem_replaceAll_self {needle : Char} {rep l : Text}
    (hrep : needle ∉ rep) : needle ∉ replaceAll needle rep l := by
  induction l with
  | nil => simp [replaceAll]
  | cons c cs ih =>
    simp only [replaceAll]
    by_cases hc : c = needle
    · rw [if_pos hc]
      intro h
      rcases List.mem_append.mp h with h1 | h1
      · exact hrep h1
      · exact ih h1
    · rw [if_neg hc]
      intro h
      rcases List.mem_cons.mp h with h1 | h1
      · exact hc h1.symm
      · exact ih h1

theorem mem_joinNl {x : Char} {ls : List Text} (h : x ∈ joinNl ls) :
    x = '\n' ∨ ∃ l ∈ ls, x ∈ l := by
  induction ls with
  | nil => exact absurd h (List.not_mem_nil x)
  | cons l ls ih =>
    cases ls with
    | nil =>
      right
      exact ⟨l, List.mem_cons_self l [], h⟩
    | cons l2 ls2 =>
      have h1 : joinNl (l :: l2 :: ls2) = l ++ '\n' :: joinNl (l2 :: ls2) := rfl
      rw [h1] at h
      rcases List.mem_append.mp h with h2 | h2
      · exact Or.inr ⟨l, List.mem_cons_self l _, h2⟩
      · rcases List.mem_cons.mp h2 with h3 | h3
        · exact Or.inl h3
        · rcases ih h3 with h4 | ⟨l3, hl3, hx3⟩
          · exact Or.inl h4
          · exact Or.inr ⟨l3, List.mem_cons_of_mem l hl3, hx3⟩

/-! ## Transform-level properties

`NoTabs`, `RstrippedLines` and `EndsNl` are the post-conditions the three
line transforms establish; each transform additionally preserves the
others' post-conditions, which yields idempotence of the pipeline. -/

def NoTabs (c : Text) : Prop := '\t' ∉ c

def RstrippedLines (c : Text) : Prop := ∀ l ∈ splitNl c, pyRstrip l = l

def EndsNl (c : Text) : Prop := c = [] ∨ c.getLast? = some '\n'

theorem fmiAux_of_noTabs {rep : Text} {ls : List Text}
    (h : ∀ l ∈ ls, '\t' ∉ l) (i : Nat) : fmiAux rep i ls = (ls, []) := by
  induction ls generalizing i with
  | nil => rfl
  | cons l ls ih =>
    have hl : ¬ l.elem '\t' = true := by
      simp only [List.elem_iff]
      exact h l (List.mem_cons_self l ls)
    simp only [fmiAux, ih (fun x hx => h x (List.mem_cons_of_mem l hx)), hl]
    simp

theorem fmiAux_fst_mem {rep : Text} {ls : List Text} {i : Nat} {l' : Text}
    (h : l' ∈ (fmiAux rep i ls).1) :
    ∃ l ∈ ls, l' = replaceAll '\t' rep l ∨ (l' = l ∧ '\t' ∉ l) := by
  induction ls generalizing i with
  | nil => exact absurd h (List.not_mem_nil l')
  | cons l ls ih =>
    simp only [fmiAux] at h
    by_cases hl : l.elem '\t' = true
    · rw [if_pos hl] at h
      by_cases hfl : replaceAll '\t' rep l ≠ l
      · rw [if_pos hfl] at h
        rcases List.mem_cons.mp h with rfl | h1
        · exact ⟨l, List.mem_cons_self l ls, Or.inl rfl⟩
        · obtain ⟨l2, hl2, hd⟩ := ih h1
          exact ⟨l2, List.mem_cons_of_mem l hl2, hd⟩
      · rw [if_neg hfl] at h
        rcases List.mem_cons.mp h with rfl | h1
        · exact ⟨l, List.mem_cons_self l ls, Or.inl rfl⟩
        · obtain ⟨l2, hl2, hd⟩ := ih h1
          exact ⟨l2, List.mem_cons_of_mem l hl2, hd⟩
    · rw [if_neg hl] at h
      rcases List.mem_cons.mp h with rfl | h1
      · refine ⟨l', List.mem_cons_self l' ls, Or.inr ⟨rfl, ?_⟩⟩
        simpa [List.elem_iff] using hl
      · obtain ⟨l2, hl2, hd⟩ := ih h1
        exact ⟨l2, List.mem_cons_of_mem l hl2, hd⟩

theorem fmiAux_fst_ne_nil {rep : Text} {ls : List Text} {i : Nat}
    (h : ls ≠ []) : (fmiAux rep i ls).1 ≠ [] := by
  cases ls with
  | nil => exact absurd rfl h
  | cons l ls =>
    simp only [fmiAux]
    split
    · split <;> simp
    · simp

theorem ftsAux_of_rstripped {ls : List Text}
    (h : ∀ l ∈ ls, pyRstrip l = l) (i : Nat) : ftsAux i ls = (ls, []) := by
  induction ls generalizing i with
  | nil => rfl
  | cons l ls ih =>
    have hl : (pyRstrip l).length = l.length := by
      rw [h l (List.mem_cons_self l ls)]
    simp only [ftsAux, ih (fun x hx => h x (List.mem_cons_of_mem l hx)), hl]
    simp

theorem ftsAux_fst_mem {ls : List Text} {i : Nat} {l' : Text}
    (h : l' ∈ (ftsAux i ls).1) :
    ∃ l ∈ ls, l' = pyRstrip l ∨ l' = l := by
  induction ls generalizing i with
  | nil => exact absurd h (List.not_mem_nil l')
  | cons l ls ih =>
    simp only [ftsAux] at h
    by_cases hl : (pyRstrip l).length ≠ l.length
    · rw [if_pos hl] at h
      rcases List.mem_cons.mp h with rfl | h1
      · exact ⟨l, List.mem_cons_self l ls, Or.inl rfl⟩
      · obtain ⟨l2, hl2, hd⟩ := ih h1
        exact ⟨l2, List.mem_cons_of_mem l hl2, hd⟩
    · rw [if_neg hl] at h
      rcases List.mem_cons.mp h with rfl | h1
      · exact ⟨l', List.mem_cons_self l' ls, Or.inr rfl⟩
      · obtain ⟨l2, hl2, hd⟩ := ih h1
        exact ⟨l2, List.mem_cons_of_mem l hl2, hd⟩

theorem ftsAux_fst_rstripped {ls : List Text} {i : Nat} {l' : Text}
    (h : l' ∈ (ftsAux i ls).1) : pyRstrip l' = l' := by
  induction ls generalizing i with
  | nil => exact absurd h (List.not_mem_nil l')
  | cons l ls ih =>
    simp only [ftsAux] at h
    by_cases hl : (pyRstrip l).length ≠ l.length
    · rw [if_pos hl] at h
      rcases List.mem_cons.mp h with rfl | h1
      · exact pyRstrip_idem l
      · exact ih h1
    · rw [if_neg hl] at h
      rcases List.mem_cons.mp h with rfl | h1
      · exact pyRstrip_eq_of_length (not_not.mp hl)
      · exact ih h1

theorem ftsAux_fst_ne_nil {ls : List Text} {i : Nat}
    (h : ls ≠ []) : (ftsAux i ls).1 ≠ [] := by
  cases ls with
  | nil => exact absurd rfl h
  | cons l ls =>
    simp only [ftsAux]
    split <;> simp

theorem fix_mixed_of_noTabs {c : Text} (h : NoTabs c) (w : Int) :
    fix_mixed_indentation w c = (c, []) := by
  have hlines : ∀ l ∈ splitNl c, '\t' ∉ l :=
    fun l hl ht => h (mem_of_mem_splitNl hl ht)
  simp only [fix_mixed_indentation, fmiAux_of_noTabs hlines 1, joinNl_splitNl]

theorem fix_trailing_of_rstripped {c : Text} (h : RstrippedLines c) :
    fix_trailing_spaces c = (c, []) := by
  simp only [fix_trailing_spaces, ftsAux_of_rstripped h 1, joinNl_splitNl]

theorem ensure_final_of_endsNl {c : Text} (h : EndsNl c) :
    ensure_final_newline c = (c, []) := by
  unfold ensure_final_newline
  rcases h with h | h
  · subst h
    simp
  · simp [h]

theorem noTabs_fix_mixed (w : Int) (c : Text) :
    NoTabs (fix_mixed_indentation w c).1 := by
  intro hmem
  rcases mem_joinNl hmem with h1 | ⟨l', hl', ht⟩
  · exact absurd h1 (by decide)
  · obtain ⟨l, hl, hd⟩ := fmiAux_fst_mem hl'
    rcases hd with rfl | ⟨rfl, hno⟩
    · exact not_mem_replaceAll_self (by simp [List.mem_replicate]) ht
    · exact hno ht

theorem noTabs_fix_trailing {c : Text} (h : NoTabs c) :
    NoTabs (fix_trailing_spaces c).1 := by
  intro hmem
  rcases mem_joinNl hmem with h1 | ⟨l', hl', ht⟩
  · exact absurd h1 (by decide)
  · obtain ⟨l, hl, hd⟩ := ftsAux_fst_mem hl'
    have ht2 : '\t' ∈ l := by
      rcases hd with rfl | rfl
      · exact mem_of_mem_pyRstrip ht
      · exact ht
    exact h (mem_of_mem_splitNl hl ht2)

theorem noTabs_ensure_final {c : Text} (h : NoTabs c) :
    NoTabs (ensure_final_newline c).1 := by
  unfold ensure_final_newline
  split
  · intro hmem
    rcases List.mem_append.mp hmem with h1 | h1
    · exact h h1
    · exact absurd (List.mem_singleton.mp h1) (by decide)
  · exact h

theorem rstripped_fix_trailing (c : Text) :
    RstrippedLines (fix_trailing_spaces c).1 := by
  intro l hl
  have hnl : ∀ l' ∈ (ftsAux 1 (splitNl c)).1, '\n' ∉ l' := by
    intro l' hl' hm
    obtain ⟨l0, hl0, hd⟩ := ftsAux_fst_mem hl'
    have hm0 : '\n' ∈ l0 := by
      rcases hd with rfl | rfl
      · exact mem_of_mem_pyRstrip hm
      · exact hm
    exact no_newline_of_mem_splitNl hl0 hm0
  simp only [fix_trailing_spaces] at hl
  rw [splitNl_joinNl hnl (ftsAux_fst_ne_nil (splitNl_ne_nil c))] at hl
  exact ftsAux_fst_rstripped hl

theorem rstripped_ensure_final {c : Text} (h : RstrippedLines c) :
    RstrippedLines (ensure_final_newline c).1 := by
  unfold ensure_final_newline
  split
  · intro l hl
    rw [splitNl_snoc_newline] at hl
    rcases List.mem_append.mp hl with h1 | h1
    · exact h l h1
    · rw [List.mem_singleton.mp h1]
      rfl
  · exact h

theorem endsNl_ensure_final (c : Text) : EndsNl (ensure_final_newline c).1 := by
  unfold ensure_final_newline
  split
  · right
    simp
  · rename_i hcond
    rcases not_and_or.mp hcond with h | h
    · exact Or.inl (not_not.mp h)
    · exact Or.inr (not_not.mp h)

theorem pipe3_noTabs (t n : Bool) (w : Int) (c : Text) :
    NoTabs (pipe3 true t n w c).1 := by
  unfold pipe3
  cases t <;> cases n <;> simp only [if_true, if_false, Bool.false_eq_true] <;>
    first
      | exact noTabs_fix_mixed w c
      | exact noTabs_ensure_final (noTabs_fix_mixed w c)
      | exact noTabs_fix_trailing (noTabs_fix_mixed w c)
      | exact noTabs_ensure_final (noTabs_fix_trailing (noTabs_fix_mixed w c))

theorem pipe3_rstripped (m n : Bool) (w : Int) (c : Text) :
    RstrippedLines (pipe3 m true n w c).1 := by
  unfold pipe3
  cases m <;> cases n <;> simp only [if_true, if_false, Bool.false_eq_true] <;>
    first
      | exact rstripped_fix_trailing c
      | exact rstripped_ensure_final (rstripped_fix_trailing c)
      | exact rstripped_fix_trailing (fix_mixed_indentation w c).1
      | exact rstripped_ensure_final
          (rstripped_fix_trailing (fix_mixed_indentation w c).1)

theorem pipe3_endsNl (m t : Bool) (w : Int) (c : Text) :
    EndsNl (pipe3 m t true w c).1 := by
  unfold pipe3
  cases m <;> cases t <;> simp only [if_true, if_false, Bool.false_eq_true] <;>
    exact endsNl_ensure_final _

theorem pipe3_fixpoint {m t n : Bool} {w : Int} {x : Text}
    (hm : m = true → NoTabs x) (ht : t = true → RstrippedLines x)
    (hn : n = true → EndsNl x) : pipe3 m t n w x = (x, []) := by
  have e1 : (if m then fix_mixed_indentation w x else (x, [])) = (x, []) := by
    cases m
    · simp
    · simpa using fix_mixed_of_noTabs (hm rfl) w
  have e2 : (if t then fix_trailing_spaces x else (x, [])) = (x, []) := by
    cases t
    · simp
    · simpa using fix_trailing_of_rstripped (ht rfl)
  have e3 : (if n then ensure_final_newline x else (x, [])) = (x, []) := by
    cases n
    · simp
    · simpa using ensure_final_of_endsNl (hn rfl)
  simp only [pipe3, e1, e2, e3, List.append_nil]

theorem pipe3_idem (m t n : Bool) (w : Int) (c : Text) :
    pipe3 m t n w (pipe3 m t n w c).1 = ((pipe3 m t n w c).1, []) := by
  apply pipe3_fixpoint
  · intro hm
    subst hm
    exact pipe3_noTabs t n w c
  · intro ht
    subst ht
    exact pipe3_rstripped m n w c
  · intro hn
    subst hn
    exact pipe3_endsNl m t w c

/-! ## process_file structural lemmas -/

theorem stats_after_transforms_files_changed (a : Args) (f : FileInput)
    (c0 : Text) (s : Stats) :
    (stats_after_transforms a f c0 s).files_changed = s.files_changed := rfl

theorem stats_after_transforms_files_processed (a : Args) (f : FileInput)
    (c0 : Text) (s : Stats) :
    (stats_after_transforms a f c0 s).files_processed = s.files_processed := rfl

theorem pf_finish_dry_run {a : Args} {f : FileInput} {raw : List Nat}
    {content : Text} {changes : List String} {s1 : Stats}
    {b : Bool} {eff : Effects} {s' : Stats} (hd : a.dry_run = true)
    (h : pf_finish a f raw content changes s1 = .res b eff s') :
    eff.wroteTarget = none ∧
      (b = true → s'.files_changed = s1.files_changed + 1 ∧
        (a.backup = true → eff.wroteBackup = some raw)) := by
  unfold pf_finish at h
  by_cases h1 : changes = []
  · rw [if_pos h1] at h
    obtain ⟨rfl, rfl, rfl⟩ := PFOut.res.inj h
    exact ⟨rfl, by simp⟩
  rw [if_neg h1] at h
  by_cases h2 : a.interactive = true ∧ f.response = Response.quit
  · rw [if_pos h2] at h
    exact absurd h (by simp)
  rw [if_neg h2] at h
  by_cases h3 : a.interactive = true ∧ f.response = Response.no
  · rw [if_pos h3] at h
    obtain ⟨rfl, rfl, rfl⟩ := PFOut.res.inj h
    exact ⟨rfl, by simp⟩
  rw [if_neg h3] at h
  by_cases h4 : encode_output a (isBomPrefixed raw) content = raw
  · rw [if_pos h4] at h
    obtain ⟨rfl, rfl, rfl⟩ := PFOut.res.inj h
    exact ⟨rfl, by simp⟩
  rw [if_neg h4] at h
  obtain ⟨rfl, rfl, rfl⟩ := PFOut.res.inj h
  exact ⟨by simp [hd], fun _ =>
    ⟨by simp [hd, bump_changed], fun hb => by simp [hb]⟩⟩

theorem process_file_dry_run {a : Args} {f : FileInput} {s : Stats}
    {b : Bool} {eff : Effects} {s' : Stats} (hd : a.dry_run = true)
    (h : process_file a f s = .res b eff s') :
    eff.wroteTarget = none ∧
      (b = true → s'.files_changed = s.files_changed + 1 ∧
        (a.backup = true → ∃ r, f.readResult = some r ∧ eff.wroteBackup = some r)) := by
  unfold process_file at h
  split at h
  · obtain ⟨rfl, rfl, rfl⟩ := PFOut.res.inj h
    exact ⟨rfl, by simp⟩
  split at h
  · obtain ⟨rfl, rfl, rfl⟩ := PFOut.res.inj h
    exact ⟨rfl, by simp⟩
  split at h
  · obtain ⟨rfl, rfl, rfl⟩ := PFOut.res.inj h
    exact ⟨rfl, by simp⟩
  split at h
  · obtain ⟨rfl, rfl, rfl⟩ := PFOut.res.inj h
    exact ⟨rfl, by simp⟩
  rename_i raw hraw
  split at h
  · exact absurd h (by simp)
  rename_i content0 hdec
  unfold pf_with_content at h
  obtain ⟨h1, h2⟩ := pf_finish_dry_run hd h
  refine ⟨h1, fun hb => ?_⟩
  obtain ⟨h3, h4⟩ := h2 hb
  rw [stats_after_transforms_files_changed] at h3
  exact ⟨h3, fun hbk => ⟨raw, hraw, h4 hbk⟩⟩

theorem pf_finish_noop {a : Args} {f : FileInput} {raw : List Nat}
    {content : Text} {changes : List String} {s1 : Stats}
    {b : Bool} {eff : Effects} {s' : Stats}
    (henc : encode_output a (isBomPrefixed raw) content = raw)
    (h : pf_finish a f raw content changes s1 = .res b eff s') :
    b = false ∧ eff = noEffects ∧ s' = s1 := by
  unfold pf_finish at h
  by_cases h1 : changes = []
  · rw [if_pos h1] at h
    obtain ⟨rfl, rfl, rfl⟩ := PFOut.res.inj h
    exact ⟨rfl, rfl, rfl⟩
  rw [if_neg h1] at h
  by_cases h2 : a.interactive = true ∧ f.response = Response.quit
  · rw [if_pos h2] at h
    exact absurd h (by simp)
  rw [if_neg h2] at h
  by_cases h3 : a.interactive = true ∧ f.response = Response.no
  · rw [if_pos h3] at h
    obtain ⟨rfl, rfl, rfl⟩ := PFOut.res.inj h
    exact ⟨rfl, rfl, rfl⟩
  rw [if_neg h3, if_pos henc] at h
  obtain ⟨rfl, rfl, rfl⟩ := PFOut.res.inj h
  exact ⟨rfl, rfl, rfl⟩

theorem process_file_noop {a : Args} {f : FileInput} {s : Stats}
    {raw : List Nat} {content0 : Text} {b : Bool} {eff : Effects} {s' : Stats}
    (hraw : f.readResult = some raw)
    (hdec : decode_utf8_sig raw = some content0)
    (henc : encode_output a (isBomPrefixed raw)
      (transform_pipeline a f.suffixLower content0).1 = raw)
    (h : process_file a f s = .res b eff s') :
    b = false ∧ eff = noEffects ∧ s'.files_changed = s.files_changed := by
  unfold process_file at h
  split at h
  · obtain ⟨rfl, rfl, rfl⟩ := PFOut.res.inj h
    exact ⟨rfl, rfl, rfl⟩
  split at h
  · obtain ⟨rfl, rfl, rfl⟩ := PFOut.res.inj h
    exact ⟨rfl, rfl, rfl⟩
  split at h
  · obtain ⟨rfl, rfl, rfl⟩ := PFOut.res.inj h
    exact ⟨rfl, rfl, rfl⟩
  split at h
  · obtain ⟨rfl, rfl, rfl⟩ := PFOut.res.inj h
    exact ⟨rfl, rfl, rfl⟩
  rename_i raw2 hraw2
  rw [hraw] at hraw2
  obtain rfl := (Option.some.inj hraw2).symm
  split at h
  · exact absurd h (by simp)
  rename_i content2 hdec2
  rw [hdec] at hdec2
  obtain rfl := (Option.some.inj hdec2).symm
  unfold pf_with_content at h
  obtain ⟨hb, heff, hs⟩ := pf_finish_noop henc h
  refine ⟨hb, heff, ?_⟩
  rw [hs, stats_after_transforms_files_changed]

theorem pf_finish_ne_decodeErr (a : Args) (f : FileInput) (raw : List Nat)
    (content : Text) (changes : List String) (s1 s2 : Stats) :
    pf_finish a f raw content changes s1 ≠ .decodeErr s2 := by
  unfold pf_finish
  split
  · simp
  split
  · simp
  split
  · simp
  split
  · simp
  simp

theorem process_file_decodeErr {a : Args} {f : FileInput} {s s2 : Stats}
    (h : process_file a f s = .decodeErr s2) :
    ∃ raw, f.readResult = some raw ∧ decode_utf8_sig raw = none := by
  unfold process_file at h
  split at h
  · exact absurd h (by simp)
  split at h
  · exact absurd h (by simp)
  split at h
  · exact absurd h (by simp)
  split at h
  · exact absurd h (by simp)
  rename_i raw hraw
  split at h
  · rename_i hdec
    exact ⟨raw, hraw, hdec⟩
  unfold pf_with_content at h
  exact absurd h (pf_finish_ne_decodeErr _ _ _ _ _ _ _)

theorem process_file_read_failure {a : Args} {f : FileInput} {s : Stats}
    (hig : ¬ f.ignored = some true) (hr : f.readResult = none) :
    process_file a f s = .res false noEffects s := by
  unfold process_file
  rw [if_neg hig]
  by_cases h2 : f.isFile = false
  · rw [if_pos h2]
  · rw [if_neg h2]
    by_cases h3 : f.size > 10 * 1024 * 1024
    · rw [if_pos h3]
    · rw [if_neg h3, hr]

theorem main_loop_skips_read_failures {a : Args} {f : FileInput}
    {rest : List FileInput} {s : Stats} (hig : f.ignored = none)
    (hr : f.readResult = none) :
    main_loop a (f :: rest) s = main_loop a rest s := by
  have h := process_file_read_failure (a := a) (f := f) (s := s)
    (by simp [hig]) hr
  simp [main_loop, h]

theorem main_loop_abort_source {a : Args} {files : List FileInput}
    {s s2 : Stats} {n : Nat}
    (h : main_loop a files s = .abortedException s2 n) :
    ∃ f ∈ files, ∃ raw, f.readResult = some raw ∧ decode_utf8_sig raw = none := by
  induction files generalizing s with
  | nil => exact absurd h (by simp [main_loop])
  | cons f rest ih =>
    unfold main_loop at h
    cases hpf : process_file a f s with
    | res b eff s1 =>
      rw [hpf] at h
      obtain ⟨f2, hf2, hsrc⟩ := ih h
      exact ⟨f2, List.mem_cons_of_mem f hf2, hsrc⟩
    | decodeErr s1 =>
      obtain ⟨raw, h1, h2⟩ := process_file_decodeErr hpf
      exact ⟨f, List.mem_cons_self f rest, raw, h1, h2⟩
    | quitExit s1 =>
      rw [hpf] at h
      exact absurd h (by simp)

theorem isBomPrefixed_cons_ne {a : Nat} (ha : a ≠ 0xEF) (l : List Nat) :
    isBomPrefixed (a :: l) = false := by
  cases l with
  | nil => rfl
  | cons b l2 =>
    cases l2 with
    | nil => rfl
    | cons c l3 => simp [isBomPrefixed, ha]

theorem utf8Encode_bom_starts (t : Text) :
    isBomPrefixed (utf8Encode t) = textStartsFeff t := by
  cases t with
  | nil => rfl
  | cons c cs =>
    show isBomPrefixed (utf8EncodeChar c ++ utf8Encode cs) = (c.toNat == 0xFEFF)
    unfold utf8EncodeChar
    by_cases h1 : c.toNat < 0x80
    · rw [if_pos h1, List.cons_append, List.nil_append,
        isBomPrefixed_cons_ne (by omega)]
      have hne : c.toNat ≠ 0xFEFF := by omega
      simp [hne]
    · rw [if_neg h1]
      by_cases h2 : c.toNat < 0x800
      · rw [if_pos h2]
        rw [List.cons_append, List.cons_append, List.nil_append,
          isBomPrefixed_cons_ne (by omega)]
        have hne : c.toNat ≠ 0xFEFF := by omega
        simp [hne]
      · rw [if_neg h2]
        by_cases h3 : c.toNat < 0x10000
        · rw [if_pos h3]
          rw [List.cons_append, List.cons_append, List.cons_append,
            List.nil_append]
          show ((0xE0 + c.toNat / 4096 == 0xEF) &&
            ((0x80 + c.toNat / 64 % 64 == 0xBB) &&
              (0x80 + c.toNat % 64 == 0xBF))) = (c.toNat == 0xFEFF)
          rw [Bool.eq_iff_iff]
          simp only [Bool.and_eq_true, beq_iff_eq]
          omega
        · rw [if_neg h3]
          rw [List.cons_append, List.cons_append, List.cons_append,
            List.cons_append, List.nil_append,
            isBomPrefixed_cons_ne (by omega)]
          have hne : c.toNat ≠ 0xFEFF := by omega
          simp [hne]

theorem encode_output_bom (a : Args) (hb : Bool) (t : Text) :
    isBomPrefixed (encode_output a hb t) =
      ((a.keep_bom && hb) || textStartsFeff t) := by
  unfold encode_output
  by_cases h : a.keep_bom = true ∧ hb = true
  · rw [if_pos h]
    simp [add_bom, bomBytes, isBomPrefixed, h.1, h.2]
  · rw [if_neg h]
    rw [utf8Encode_bom_starts]
    have hkb : (a.keep_bom && hb) = false := by
      cases hk : a.keep_bom <;> cases hh : hb <;> simp_all
    rw [hkb, Bool.false_or]

theorem jsonStep_skip {a : Args} {sfx : Text}
    (h : ¬(a.format_json = true ∧ sfx = jsonSuffix)) (c : Text) :
    jsonStep a sfx c = (c, []) := by
  unfold jsonStep
  rw [if_neg h]

theorem transform_pipeline_idem {a : Args} {sfx : Text}
    (h : ¬(a.format_json = true ∧ sfx = jsonSuffix)) (c : Text) :
    transform_pipeline a sfx (transform_pipeline a sfx c).1 =
      ((transform_pipeline a sfx c).1, []) := by
  unfold transform_pipeline
  simp only [jsonStep_skip h, List.nil_append, pipe3_idem]

theorem pf_finish_files_processed {a : Args} {f : FileInput} {raw : List Nat}
    {content : Text} {changes : List String} {s1 : Stats}
    {b : Bool} {eff : Effects} {s' : Stats}
    (h : pf_finish a f raw content changes s1 = .res b eff s') :
    s'.files_processed = s1.files_processed := by
  unfold pf_finish at h
  by_cases h1 : changes = []
  · rw [if_pos h1] at h
    obtain ⟨rfl, rfl, rfl⟩ := PFOut.res.inj h
    rfl
  rw [if_neg h1] at h
  by_cases h2 : a.interactive = true ∧ f.response = Response.quit
  · rw [if_pos h2] at h
    exact absurd h (by simp)
  rw [if_neg h2] at h
  by_cases h3 : a.interactive = true ∧ f.response = Response.no
  · rw [if_pos h3] at h
    obtain ⟨rfl, rfl, rfl⟩ := PFOut.res.inj h
    rfl
  rw [if_neg h3] at h
  by_cases h4 : encode_output a (isBomPrefixed raw) content = raw
  · rw [if_pos h4] at h
    obtain ⟨rfl, rfl, rfl⟩ := PFOut.res.inj h
    rfl
  rw [if_neg h4] at h
  obtain ⟨rfl, rfl, rfl⟩ := PFOut.res.inj h
  simp only [bump_changed]
  split
  · rfl
  split
  · rfl
  · rfl

theorem process_file_files_processed {a : Args} {f : FileInput} {s : Stats}
    {b : Bool} {eff : Effects} {s' : Stats}
    (h : process_file a f s = .res b eff s') :
    s'.files_processed = s.files_processed := by
  unfold process_file at h
  split at h
  · obtain ⟨rfl, rfl, rfl⟩ := PFOut.res.inj h
    rfl
  split at h
  · obtain ⟨rfl, rfl, rfl⟩ := PFOut.res.inj h
    rfl
  split at h
  · obtain ⟨rfl, rfl, rfl⟩ := PFOut.res.inj h
    rfl
  split at h
  · obtain ⟨rfl, rfl, rfl⟩ := PFOut.res.inj h
    rfl
  split at h
  · exact absurd h (by simp)
  rename_i content0 hdec
  unfold pf_with_content at h
  rw [pf_finish_files_processed h]
  exact stats_after_transforms_files_processed _ _ _ _

/-! ## Claim theorems -/

/-- C1: for every file processed by `process_file`, if the re-encoded
transformed bytes (including any reinstated BOM) are byte-identical to the
original raw bytes read from disk, then `process_file` performs no write
to the file, creates no backup file, and does not count the file as
changed in the run statistics.  (The interactive-quit outcome records no
effects by construction, so the returning outcomes are characterized.) -/
theorem claim1_no_noop_write {a : Args} {f : FileInput} {s : Stats}
    {raw : List Nat} {content0 : Text} {b : Bool} {eff : Effects} {s' : Stats}
    (hraw : f.readResult = some raw)
    (hdec : decode_utf8_sig raw = some content0)
    (henc : encode_output a (isBomPrefixed raw)
      (transform_pipeline a f.suffixLower content0).1 = raw)
    (h : process_file a f s = .res b eff s') :
    eff.wroteTarget = none ∧ eff.wroteBackup = none ∧
      s'.files_changed = s.files_changed := by
  obtain ⟨hb, heff, hs⟩ := process_file_noop hraw hdec henc h
  subst heff
  exact ⟨rfl, rfl, hs⟩

/-- Witness for C1 at `--remove-bom --keep-bom` on a BOM-prefixed file:
the BOM is stripped and re-added, the bytes compose to the original, and
no write, backup or changed-count results. -/
theorem claim1_no_noop_write_witness :
    noEffects.wroteTarget = none ∧ noEffects.wroteBackup = none ∧
      stats_init.files_changed = stats_init.files_changed :=
  claim1_no_noop_write
    (by decide : fileBomHi.readResult = some [0xEF, 0xBB, 0xBF, 104, 105])
    (by decide : decode_utf8_sig [0xEF, 0xBB, 0xBF, 104, 105] = some "hi".data)
    (by decide :
      encode_output argsBomRoundTrip
        (isBomPrefixed [0xEF, 0xBB, 0xBF, 104, 105])
        (transform_pipeline argsBomRoundTrip fileBomHi.suffixLower "hi".data).1 =
        [0xEF, 0xBB, 0xBF, 104, 105])
    (by decide : process_file argsBomRoundTrip fileBomHi stats_init =
      .res false noEffects stats_init)

/-- C2 counterexample: with JSON canonicalization and final-newline both
enabled on the `.json` content `"\x7b\x7d"`, the second pipeline pass
produces identical output but records `["Formatted JSON", "Added final
newline"]` — not the empty change list the claim asserts. -/
theorem claim2_second_pass_changes :
    (transform_pipeline argsJsonNl jsonSuffix
        (transform_pipeline argsJsonNl jsonSuffix "\x7b\x7d".data).1).2 =
      ["Formatted JSON", "Added final newline"] ∧
    (transform_pipeline argsJsonNl jsonSuffix
        (transform_pipeline argsJsonNl jsonSuffix "\x7b\x7d".data).1).1 =
      (transform_pipeline argsJsonNl jsonSuffix "\x7b\x7d".data).1 := by
  decide

/-- C2 amended: whenever the JSON canonicalization step does not run
(disabled, or the suffix is not `.json`), running the enabled-transform
pipeline a second time on its own output produces identical output and an
empty change list. -/
theorem claim2_idempotent_without_json {a : Args} {sfx : Text}
    (h : ¬(a.format_json = true ∧ sfx = jsonSuffix)) (c : Text) :
    transform_pipeline a sfx (transform_pipeline a sfx c).1 =
      ((transform_pipeline a sfx c).1, []) :=
  transform_pipeline_idem h c

/-- Witness for the amended C2 on a concrete mixed-tab input with all
three line transforms enabled. -/
theorem claim2_idempotent_witness :
    transform_pipeline argsMTN ".py".data
        (transform_pipeline argsMTN ".py".data "a\t \nb".data).1 =
      ((transform_pipeline argsMTN ".py".data "a\t \nb".data).1, []) :=
  claim2_idempotent_without_json (by decide) "a\t \nb".data

/-- C3 counterexample: a file whose bytes `b"\xff"` fail the `utf-8-sig`
decode (performed outside the read `try` block) aborts the run with the
following file left unprocessed, contradicting the claim that only the
interactive quit terminates the loop early. -/
theorem claim3_decode_error_aborts :
    main_loop argsTrailing [fileBadUtf8, fileTrailing] stats_init =
      .abortedException stats_init 1 := by
  decide

/-- C3 amended: an exception aborting the processing loop can only arise
from a file whose raw bytes fail the `utf-8-sig` decode; read failures
(caught by the `try` block) never abort: the loop continues over the
remaining files with the state unchanged. -/
theorem claim3_amended_error_containment :
    (∀ (a : Args) (files : List FileInput) (s s2 : Stats) (n : Nat),
        main_loop a files s = .abortedException s2 n →
        ∃ f ∈ files, ∃ raw, f.readResult = some raw ∧
          decode_utf8_sig raw = none) ∧
    (∀ (a : Args) (f : FileInput) (rest : List FileInput) (s : Stats),
        f.ignored = none → f.readResult = none →
        main_loop a (f :: rest) s = main_loop a rest s) :=
  ⟨fun _ _ _ _ _ h => main_loop_abort_source h,
    fun _ _ _ _ hig hr => main_loop_skips_read_failures hig hr⟩

/-- Witness for the amended C3: the aborting run above really contains a
decode-failing file, and a read-failure file is skipped over. -/
theorem claim3_amended_witness :
    (∃ f ∈ [fileBadUtf8, fileTrailing], ∃ raw,
        f.readResult = some raw ∧ decode_utf8_sig raw = none) ∧
      main_loop argsTrailing (fileReadFail :: [fileTrailing]) stats_init =
        main_loop argsTrailing [fileTrailing] stats_init :=
  ⟨claim3_amended_error_containment.1 argsTrailing [fileBadUtf8, fileTrailing]
      stats_init stats_init 1 (by decide),
    claim3_amended_error_containment.2 argsTrailing fileReadFail [fileTrailing]
      stats_init (by decide) (by decide)⟩

/-- C4 counterexample: on the doubled-BOM file with `--remove-bom` (so
keep-BOM is off), the written bytes still begin with the BOM sequence,
because the decoded text itself begins with U+FEFF — refuting the claimed
"only if" direction. -/
theorem claim4_bom_readded_without_keep :
    process_file argsRemoveBom fileDoubleBom stats_init =
        .res true ⟨some [0xEF, 0xBB, 0xBF, 104], none⟩
          ⟨0, 1, 0, 0, 1, 0, 0, 0⟩ ∧
      isBomPrefixed [0xEF, 0xBB, 0xBF, 104] = true ∧
      argsRemoveBom.keep_bom = false := by
  decide

/-- C4 amended: the re-encoded output bytes begin with the UTF-8 BOM
sequence exactly when keep-BOM is set and the original had a BOM, or the
transformed text itself begins with the code point U+FEFF (e.g. a doubled
BOM in the original); the stripped BOM itself is re-prepended only under
keep-BOM with an original BOM. -/
theorem claim4_bom_prefix_iff (a : Args) (had_bom : Bool) (t : Text) :
    isBomPrefixed (encode_output a had_bom t) =
      ((a.keep_bom && had_bom) || textStartsFeff t) :=
  encode_output_bom a had_bom t

/-- C5 counterexample: with `--dry-run --backup` on a file with trailing
whitespace, `process_file` writes no target bytes and counts the file as
changed, but it does write the backup file — refuting "never writes
anything to disk". -/
theorem claim5_backup_written_in_dry_run :
    process_file argsDryBackup fileTrailing stats_init =
        .res true ⟨none, some [97, 32]⟩ ⟨0, 1, 0, 1, 0, 0, 0, 0⟩ ∧
      argsDryBackup.dry_run = true ∧
      (some [97, 32] : Option (List Nat)) ≠ none := by
  decide

/-- C5 amended: under dry-run, `process_file` never writes the target
file and still counts a differing file as changed; but when the backup
option is also enabled, the original bytes are written to the backup file
even in dry-run. -/
theorem claim5_dry_run_no_target_write {a : Args} {f : FileInput} {s : Stats}
    {b : Bool} {eff : Effects} {s' : Stats} (hd : a.dry_run = true)
    (h : process_file a f s = .res b eff s') :
    eff.wroteTarget = none ∧
      (b = true → s'.files_changed = s.files_changed + 1 ∧
        (a.backup = true → ∃ r, f.readResult = some r ∧
          eff.wroteBackup = some r)) :=
  process_file_dry_run hd h

/-- Witness for the amended C5 at the dry-run-plus-backup input. -/
theorem claim5_dry_run_witness :
    (⟨none, some [97, 32]⟩ : Effects).wroteTarget = none ∧
      (true = true →
        (⟨0, 1, 0, 1, 0, 0, 0, 0⟩ : Stats).files_changed =
            stats_init.files_changed + 1 ∧
          (argsDryBackup.backup = true → ∃ r, fileTrailing.readResult = some r ∧
            (⟨none, some [97, 32]⟩ : Effects).wroteBackup = some r)) :=
  claim5_dry_run_no_target_write (by decide)
    (by decide : process_file argsDryBackup fileTrailing stats_init =
      .res true ⟨none, some [97, 32]⟩ ⟨0, 1, 0, 1, 0, 0, 0, 0⟩)

/-- C6: on `"def f():\n\tpass  \n"` with width 4 and the mixed,
trailing and final-newline transforms enabled, the pipeline outputs
`"def f():\n    pass\n"` with exactly the two expected changes on line 2,
and the final-newline transform reports no change on the result. -/
theorem claim6_end_to_end_scenario :
    transform_pipeline argsMTN ".py".data "def f():\n\tpass  \n".data =
      ("def f():\n    pass\n".data,
        ["Line 2: Tabs → spaces", "Line 2: Removed trailing spaces"]) ∧
    ensure_final_newline "def f():\n    pass\n".data =
      ("def f():\n    pass\n".data, []) := by
  decide

/-- C7: `build/` ignores `R/build/out.txt`; `*.log` ignores
`R/a/b/x.log` (the base name `x.log` glob-matches); the root itself is
never ignored; a path outside the root (failed `relative_to`) is never
ignored. -/
theorem claim7_gitignore_matching :
    should_ignore ["build/".data] (some ["build".data, "out.txt".data]) = true ∧
    should_ignore ["*.log".data] (some ["a".data, "b".data, "x.log".data]) = true ∧
    fnmatch "x.log".data "*.log".data = true ∧
    (∀ patterns : List Text, should_ignore patterns (some []) = false) ∧
    (∀ patterns : List Text, should_ignore patterns none = false) :=
  ⟨by decide, by decide, by decide, fun _ => rfl, fun _ => rfl⟩

/-- C8: when the text fails to parse as JSON, `format_json` returns it
unchanged with the changed flag false (so no change is recorded and no
error arises); it returns a replacement with the flag true only when the
parse succeeds and the re-serialization differs from the input. -/
theorem claim8_json_parse_failure_silent :
    (∀ (w : Int) (c : Text), jsonLoads c = none → format_json w c = (c, false)) ∧
    (∀ (w : Int) (c out : Text), format_json w c = (out, true) →
      out ≠ c ∧ ∃ v, jsonLoads c = some v ∧ out = dumpVal w.toNat 0 v) := by
  constructor
  · intro w c h
    unfold format_json
    rw [h]
  · intro w c out h
    unfold format_json at h
    cases hl : jsonLoads c with
    | none =>
      simp only [hl] at h
      exact absurd (Prod.mk.inj h).2 (by simp)
    | some v =>
      simp only [hl] at h
      by_cases hd : dumpVal w.toNat 0 v ≠ c
      · rw [if_pos hd] at h
        obtain ⟨ho, _⟩ := Prod.mk.inj h
        exact ⟨ho ▸ hd, v, rfl, ho.symm⟩
      · rw [if_neg hd] at h
        exact absurd (Prod.mk.inj h).2 (by simp)

/-- Witness for C8 at the unparseable text `"x"`. -/
theorem claim8_json_witness :
    format_json 4 "x".data = ("x".data, false) :=
  claim8_json_parse_failure_silent.1 4 "x".data rfl

/-- C9: the code never increments `stats["files_processed"]`: after a run
that invoked `process_file` on one file (which was changed), the counter
is still 0 — not the number of files invoked — and the derived
percent-changed line is not printed because its `files_processed > 0`
guard fails. -/
theorem claim9_files_processed_stuck :
    main_loop argsTrailing [fileTrailing] stats_init =
        .completed ⟨0, 1, 0, 1, 0, 0, 0, 0⟩ ∧
      (⟨0, 1, 0, 1, 0, 0, 0, 0⟩ : Stats).files_processed = 0 ∧
      argsTrailing.quiet = false ∧
      print_stats_shows_percent argsTrailing ⟨0, 1, 0, 1, 0, 0, 0, 0⟩ = false := by
  decide

/-- C10: a directory-scoped pattern `p/` makes `should_ignore` true for
every path under the root whose root-relative string merely starts with
the characters of `p` — including a plain file like `builder.txt` against
pattern `build/`. -/
theorem claim10_dir_pattern_prefix_match {pat : Text} {patterns : List Text}
    {comps : List Text}
    (hmem : pat ∈ patterns) (hpat : pat.getLast? = some '/')
    (hne : comps ≠ [])
    (hpre : pat.dropLast.isPrefixOf (relStr comps) = true) :
    should_ignore patterns (some comps) = true := by
  unfold should_ignore
  cases comps with
  | nil => exact absurd rfl hne
  | cons c0 cr =>
    rw [List.any_eq_true]
    refine ⟨pat, hmem, ?_⟩
    rw [if_pos hpat, hpre, Bool.true_or]

/-- Witness for C10: pattern `build/` ignores the plain file
`builder.txt` directly under the root. -/
theorem claim10_prefix_witness :
    should_ignore ["build/".data] (some ["builder.txt".data]) = true :=
  claim10_dir_pattern_prefix_match (List.mem_cons_self _ _) (by decide)
    (by decide) (by decide)
